import Mathlib

/-!
Verification of the reading-analysis metrics core.

A shallow embedding, in Lean, of the metric functions of this repository
(`normalizar_texto`, `analizar_diferencias`, `calcular_fluidez`,
`realizar_analisis_completo`, `programar_analisis` across `main.py`,
`analisis_appweb.py` and `transcribir.py`), together with proofs of the
specification claims about them.

Numeric model: Python floats are modelled by exact rationals (`ℚ`); this is
exact on every concrete value appearing below.  Python's `round(x, 2)`
(round-half-to-even on hundredths) is `pyRound2`.  Division by zero, which
raises `ZeroDivisionError` in Python, is modelled with `Except` where a claim
depends on it; in `ℚ` itself `x / 0 = 0`.

The aligner used by every `analizar_diferencias` variant is
`difflib.SequenceMatcher(None, ref_words, audio_words)`.  It is embedded here
following the documented stdlib semantics with the `autojunk` popularity
heuristic disabled: `findLongestMatch` returns the longest matching block of
the two slices, preferring blocks that start earliest in `a` and then earliest
in `b`; `matchingBlocks` recursively fills the gaps before and after each
longest match (the stdlib drives this with an explicit queue plus a final
lexicographic sort, which yields exactly this in-order traversal, since all
blocks found left of a match stay strictly left of it), merges adjacent
blocks, and appends the `(la, lb, 0)` sentinel; `getOpcodes` turns the block
list into `equal`/`replace`/`delete`/`insert` opcodes.  Bounded loops are
written with explicit fuel equal to the loop bound so that every definition
computes by kernel reduction.
-/

namespace Modelo

/-! ## The embedded program -/

/-- Floor of a rational, computed on the normalised numerator/denominator. -/
def ratFloor (q : ℚ) : ℤ := Int.fdiv q.num q.den

/-- Round a rational to the nearest integer, ties to even
(the rounding used by Python's `round`). -/
def roundHalfEven (q : ℚ) : ℤ :=
  let f : ℤ := ratFloor q
  let r : ℚ := q - (f : ℚ)
  if r < 1 / 2 then f
  else if 1 / 2 < r then f + 1
  else if f % 2 = 0 then f else f + 1

/-- Python's `round(q, 2)`. -/
def pyRound2 (q : ℚ) : ℚ := (roundHalfEven (q * 100) : ℚ) / 100

/-- Worker for `pySplit`: `acc` holds the reversed characters of the word
currently being read. -/
def pySplitGo : List Char → List Char → List String
  | acc, [] => if acc = [] then [] else [String.mk acc.reverse]
  | acc, c :: cs =>
    if c.isWhitespace then
      (if acc = [] then [] else [String.mk acc.reverse]) ++ pySplitGo [] cs
    else pySplitGo (c :: acc) cs

/-- Python's `str.split()`: split on whitespace runs, no empty pieces. -/
def pySplit (s : String) : List String := pySplitGo [] s.toList

/-- Python's `" ".join(ws)`. -/
def joinSp : List String → String
  | [] => ""
  | [w] => w
  | w :: rest => w ++ " " ++ joinSp rest

/-- Python's `" ".join(ws[i1:i2])`. -/
def sliceJoin (ws : List String) (i1 i2 : Nat) : String :=
  joinSp ((ws.drop i1).take (i2 - i1))

/-- Length of the matching run of `a` against `b` starting at positions
`i`, `j`, stopping at `bhi` on the `b` side; the fuel is the remaining
room `ahi - i` on the `a` side. -/
def mlGo (a b : List String) (bhi : Nat) : Nat → Nat → Nat → Nat
  | 0, _, _ => 0
  | fuel + 1, i, j =>
    if j < bhi ∧ (a.get? i).isSome ∧ a.get? i = b.get? j then
      mlGo a b bhi fuel (i + 1) (j + 1) + 1
    else 0

/-- Length of the matching run of `a[i:ahi]` against `b[j:bhi]`. -/
def matchLenFrom (a b : List String) (ahi bhi i j : Nat) : Nat :=
  mlGo a b bhi (ahi - i) i j

/-- One candidate step of `find_longest_match`: replace the best block only
on a strictly longer match at `(i, j)`. -/
def flmStep (a b : List String) (ahi bhi i : Nat)
    (best : Nat × Nat × Nat) (j : Nat) : Nat × Nat × Nat :=
  if best.2.2 < matchLenFrom a b ahi bhi i j then
    (i, j, matchLenFrom a b ahi bhi i j)
  else best

/-- `find_longest_match(alo, ahi, blo, bhi)`: the longest block
`(i, j, k)` with `a[i:i+k] = b[j:j+k]` inside the given slices, preferring
smallest `i`, then smallest `j` (strict-improvement scan in index order). -/
def findLongestMatch (a b : List String) (alo ahi blo bhi : Nat) :
    Nat × Nat × Nat :=
  (List.range' alo (ahi - alo)).foldl
    (fun best i =>
      (List.range' blo (bhi - blo)).foldl (flmStep a b ahi bhi i) best)
    (alo, blo, 0)

/-- Recursive collection of matching blocks: the longest match of the
current region, with the regions strictly before and strictly after it
filled recursively.  Fuel bounds the recursion depth; `matchingBlocks`
supplies enough fuel for the recursion to never hit `0`. -/
def mbGo (a b : List String) : Nat → Nat → Nat → Nat → Nat →
    List (Nat × Nat × Nat)
  | 0, _, _, _, _ => []
  | fuel + 1, alo, ahi, blo, bhi =>
    match findLongestMatch a b alo ahi blo bhi with
    | (i, j, k) =>
      if k = 0 then []
      else
        (if alo < i ∧ blo < j then mbGo a b fuel alo i blo j else []) ++
        (i, j, k) ::
        (if i + k < ahi ∧ j + k < bhi then
          mbGo a b fuel (i + k) ahi (j + k) bhi
         else [])

/-- All matching blocks of `a` against `b`, in order, without the merge
pass and the sentinel. -/
def matchingBlocks (a b : List String) : List (Nat × Nat × Nat) :=
  mbGo a b (a.length + b.length + 1) 0 a.length 0 b.length

/-- The adjacent-block merge loop of `get_matching_blocks`, carried out from
the running block `(i1, j1, k1)` (initially `(0, 0, 0)`); a block is emitted
only when its size is nonzero. -/
def mergeFrom : Nat × Nat × Nat → List (Nat × Nat × Nat) →
    List (Nat × Nat × Nat)
  | (i1, j1, k1), [] => if k1 ≠ 0 then [(i1, j1, k1)] else []
  | (i1, j1, k1), (i2, j2, k2) :: rest =>
    if i1 + k1 = i2 ∧ j1 + k1 = j2 then mergeFrom (i1, j1, k1 + k2) rest
    else
      (if k1 ≠ 0 then [(i1, j1, k1)] else []) ++ mergeFrom (i2, j2, k2) rest

/-- `get_matching_blocks()`: merged blocks plus the `(la, lb, 0)` sentinel. -/
def getMatchingBlocks (a b : List String) : List (Nat × Nat × Nat) :=
  mergeFrom (0, 0, 0) (matchingBlocks a b) ++ [(a.length, b.length, 0)]

/-- Opcode tags of `difflib`. -/
inductive Tag
  | equal
  | replace
  | delete
  | insert
deriving DecidableEq, Repr

/-- One opcode `(tag, i1, i2, j1, j2)` as returned by `get_opcodes()`. -/
structure Opcode where
  tag : Tag
  i1 : Nat
  i2 : Nat
  j1 : Nat
  j2 : Nat
deriving DecidableEq, Repr

/-- The loop body of `get_opcodes()`: walk the matching blocks keeping the
current position `(i, j)`, emitting a gap opcode and then an `equal` opcode
per block. -/
def opcodesFromBlocks : Nat → Nat → List (Nat × Nat × Nat) → List Opcode
  | _, _, [] => []
  | i, j, (ai, bj, size) :: rest =>
    (if i < ai ∧ j < bj then [⟨Tag.replace, i, ai, j, bj⟩]
     else if i < ai then [⟨Tag.delete, i, ai, j, bj⟩]
     else if j < bj then [⟨Tag.insert, i, ai, j, bj⟩]
     else []) ++
    (if size ≠ 0 then [⟨Tag.equal, ai, ai + size, bj, bj + size⟩] else []) ++
    opcodesFromBlocks (ai + size) (bj + size) rest

/-- `get_opcodes()` of `difflib.SequenceMatcher(None, a, b)`. -/
def getOpcodes (a b : List String) : List Opcode :=
  opcodesFromBlocks 0 0 (getMatchingBlocks a b)

/-- The bounds that `find_longest_match` guarantees for its result. -/
def FlmBounds (alo ahi blo bhi : Nat) (p : Nat × Nat × Nat) : Prop :=
  alo ≤ p.1 ∧ p.1 + p.2.2 ≤ ahi ∧ blo ≤ p.2.1 ∧ p.2.1 + p.2.2 ≤ bhi

/-- The matching blocks starting from position `s` are in order: each block
begins at or after the running position, and the final position stays at or
before `e`, componentwise. -/
def BChain : Nat × Nat → List (Nat × Nat × Nat) → Nat × Nat → Prop
  | s, [], e => s.1 ≤ e.1 ∧ s.2 ≤ e.2
  | s, (i, j, k) :: rest, e => s.1 ≤ i ∧ s.2 ≤ j ∧ BChain (i + k, j + k) rest e

/-- The opcode list starting at position `(i, j)` is gap-free and monotone
and ends exactly at `(i2, j2)`: each opcode starts where the previous one
ended, with non-decreasing ranges. -/
def OpChain : Nat → Nat → List Opcode → Nat → Nat → Prop
  | i, j, [], i2, j2 => i = i2 ∧ j = j2
  | i, j, op :: rest, i2, j2 =>
    op.i1 = i ∧ op.j1 = j ∧ i ≤ op.i2 ∧ j ≤ op.j2 ∧
      OpChain op.i2 op.j2 rest i2 j2

/-- Number of opcodes whose reference range contains index `x`. -/
def refHits (x : Nat) (ops : List Opcode) : Nat :=
  ops.countP (fun op => decide (op.i1 ≤ x ∧ x < op.i2))

/-- Number of opcodes whose hypothesis range contains index `y`. -/
def hypHits (y : Nat) (ops : List Opcode) : Nat :=
  ops.countP (fun op => decide (op.j1 ≤ y ∧ y < op.j2))

/-- One discrepancy record
`{"tipo": opcode, "palabra_original": ..., "palabra_dicha": ...}`. -/
structure DifRecord where
  tipo : Tag
  palabra_original : String
  palabra_dicha : String
deriving DecidableEq, Repr

/-- Accumulator of the opcode loop of `analizar_diferencias` in `main.py`:
difference records, correct count, incorrect count, and the
`errores_recurrentes` frequency dictionary (an association list). -/
structure MainAcc where
  diferencias : List DifRecord
  correctas : Nat
  incorrectas : Nat
  errores : List ((String × String) × Nat)
deriving Repr

/-- `errores_recurrentes[error_key] = errores_recurrentes.get(error_key, 0) + 1`. -/
def bumpError : List ((String × String) × Nat) → (String × String) →
    List ((String × String) × Nat)
  | [], k => [(k, 1)]
  | (k', n) :: rest, k =>
    if k' = k then (k', n + 1) :: rest else (k', n) :: bumpError rest k

/-- One iteration of the opcode loop of `analizar_diferencias` in `main.py`:
`equal` adds `i2 - i1` to `correctas`; every other opcode adds
`max(i2 - i1, j2 - j1)` to `incorrectas`, bumps the error dictionary and
appends a difference record. -/
def mainStep (refWords audioWords : List String) (acc : MainAcc)
    (op : Opcode) : MainAcc :=
  if op.tag = Tag.equal then
    { acc with correctas := acc.correctas + (op.i2 - op.i1) }
  else
    { acc with
        incorrectas := acc.incorrectas + max (op.i2 - op.i1) (op.j2 - op.j1)
        errores := bumpError acc.errores
          (sliceJoin refWords op.i1 op.i2, sliceJoin audioWords op.j1 op.j2)
        diferencias := acc.diferencias ++
          [⟨op.tag, sliceJoin refWords op.i1 op.i2,
            sliceJoin audioWords op.j1 op.j2⟩] }

/-- The tuple returned by `analizar_diferencias` in `main.py`:
`(diferencias, correctas, incorrectas, precision, errores_recurrentes)`. -/
structure MainAnalisis where
  diferencias : List DifRecord
  correctas : Nat
  incorrectas : Nat
  precision : ℚ
  errores : List ((String × String) × Nat)

/-- `analizar_diferencias` of `main.py` on the already-split word lists
(the Python body starts by splitting its two string arguments;
`analizarDiferencias` composes with `pySplit`). -/
def analizarListas (refWords audioWords : List String) : MainAnalisis :=
  let acc := (getOpcodes refWords audioWords).foldl
    (mainStep refWords audioWords) ⟨[], 0, 0, []⟩
  { diferencias := acc.diferencias
    correctas := acc.correctas
    incorrectas := acc.incorrectas
    precision :=
      if acc.correctas + acc.incorrectas > 0 then
        pyRound2 ((acc.correctas : ℚ) /
          ((acc.correctas + acc.incorrectas : Nat) : ℚ) * 100)
      else 0
    errores := acc.errores }

/-- `analizar_diferencias(texto_ref, texto_audio)` of `main.py`. -/
def analizarDiferencias (textoRef textoAudio : String) : MainAnalisis :=
  analizarListas (pySplit textoRef) (pySplit textoAudio)

/-- The tuple returned by `analizar_diferencias` in `transcribir.py` and by
the variant in `analisis_appweb.py`:
`(diferencias, correctas, incorrectas, precision)`. -/
structure TransAnalisis where
  diferencias : List DifRecord
  correctas : Nat
  incorrectas : Nat
  precision : ℚ

/-- One iteration of the opcode loop of `analizar_diferencias` in
`transcribir.py` (as `main.py` but without the error dictionary). -/
def transStep (refWords audioWords : List String)
    (acc : List DifRecord × Nat × Nat) (op : Opcode) :
    List DifRecord × Nat × Nat :=
  if op.tag = Tag.equal then
    (acc.1, acc.2.1 + (op.i2 - op.i1), acc.2.2)
  else
    (acc.1 ++ [⟨op.tag, sliceJoin refWords op.i1 op.i2,
        sliceJoin audioWords op.j1 op.j2⟩],
      acc.2.1, acc.2.2 + max (op.i2 - op.i1) (op.j2 - op.j1))

/-- `analizar_diferencias` of `transcribir.py` on the already-split lists. -/
def transAnalizarListas (refWords audioWords : List String) : TransAnalisis :=
  let acc := (getOpcodes refWords audioWords).foldl
    (transStep refWords audioWords) ([], 0, 0)
  { diferencias := acc.1
    correctas := acc.2.1
    incorrectas := acc.2.2
    precision :=
      if acc.2.1 + acc.2.2 > 0 then
        pyRound2 ((acc.2.1 : ℚ) / ((acc.2.1 + acc.2.2 : Nat) : ℚ) * 100)
      else 0 }

/-- `ref_words = texto_ref.split()[:500]` of `analisis_appweb.py`. -/
def appwebWords (l : List String) : List String := l.take 500

/-- `correctas = sum(i2-i1 for op,i1,i2,j1,j2 in matcher.get_opcodes()
if op == "equal")` of `analisis_appweb.py`. -/
def appwebCorrectas (refWords audioWords : List String) : Nat :=
  (getOpcodes (appwebWords refWords) (appwebWords audioWords)).foldl
    (fun acc op => if op.tag = Tag.equal then acc + (op.i2 - op.i1) else acc) 0

/-- `total = len(ref_words)` of `analisis_appweb.py`. -/
def appwebTotal (refWords : List String) : Nat := (appwebWords refWords).length

/-- The difference-record loop of `analisis_appweb.py` (non-`equal` opcodes
only). -/
def appwebDiferencias (refWords audioWords : List String) : List DifRecord :=
  (getOpcodes (appwebWords refWords) (appwebWords audioWords)).foldl
    (fun acc op =>
      if op.tag ≠ Tag.equal then
        acc ++ [⟨op.tag, sliceJoin (appwebWords refWords) op.i1 op.i2,
          sliceJoin (appwebWords audioWords) op.j1 op.j2⟩]
      else acc) []

/-- `analizar_diferencias` of `analisis_appweb.py` on already-split lists:
truncates both inputs to 500 words, counts `correctas` over `equal`
opcodes, and returns `(diferencias[:10], correctas, total - correctas,
round(correctas/total*100, 2) if total > 0 else 0)` with
`total = len(ref_words)`.  The `except` branch that returns zeros is
unreachable: the body raises no exception. -/
def appwebAnalizarListas (refWords audioWords : List String) : TransAnalisis :=
  { diferencias := (appwebDiferencias refWords audioWords).take 10
    correctas := appwebCorrectas refWords audioWords
    incorrectas := appwebTotal refWords - appwebCorrectas refWords audioWords
    precision :=
      if appwebTotal refWords > 0 then
        pyRound2 ((appwebCorrectas refWords audioWords : ℚ) /
          ((appwebTotal refWords : Nat) : ℚ) * 100)
      else 0 }

/-- Modelled from the spec: the claimed correct count — the sum of
`i2 - i1` over `equal` opcodes. -/
def specCorrect (refWords audioWords : List String) : Nat :=
  ((getOpcodes refWords audioWords).map
    (fun op => if op.tag = Tag.equal then op.i2 - op.i1 else 0)).sum

/-- Modelled from the spec: the claimed incorrect count — the sum of
`max(i2 - i1, j2 - j1)` over non-`equal` opcodes. -/
def specIncorrect (refWords audioWords : List String) : Nat :=
  ((getOpcodes refWords audioWords).map
    (fun op => if op.tag = Tag.equal then 0
      else max (op.i2 - op.i1) (op.j2 - op.j1))).sum

/-- Modelled from the spec: the claimed precision,
`round(correct/(correct+incorrect)*100, 2)` when the denominator is
positive, else `0`. -/
def specPrecision (refWords audioWords : List String) : ℚ :=
  if specCorrect refWords audioWords + specIncorrect refWords audioWords > 0
  then
    pyRound2 ((specCorrect refWords audioWords : ℚ) /
      ((specCorrect refWords audioWords +
        specIncorrect refWords audioWords : Nat) : ℚ) * 100)
  else 0

/-- One transcription segment.  `prevEnd` models the optional `prev_end`
dictionary key that `transcribir.py` writes into segment dictionaries; the
segments supplied by the transcription service carry only `start`/`end`
(here `stop`), i.e. `prevEnd = none`. -/
structure Segment where
  start : ℚ
  stop : ℚ
  prevEnd : Option ℚ
deriving DecidableEq, Repr

/-- The transcription dictionary: `{'text': ..., 'segments': [...]}`. -/
structure Transcription where
  text : String
  segments : List Segment
deriving DecidableEq, Repr

/-- The fluency result dictionary. -/
structure Fluidez where
  palabras_por_minuto : ℚ
  numero_pausas : Nat
  duracion_total_segundos : ℚ
deriving DecidableEq, Repr

/-- `duracion = transcripcion['segments'][-1]['end'] if
transcripcion['segments'] else 1`. -/
def duracionOf (segments : List Segment) : ℚ :=
  match segments.getLast? with
  | some s => s.stop
  | none => 1

/-- The pause loop of `main.py` and `analisis_appweb.py`: count consecutive
segment pairs whose gap `segments[i].start - segments[i-1].end` exceeds
1.5 seconds. -/
def countPausas : List Segment → Nat
  | s1 :: s2 :: rest =>
    (if s2.start - s1.stop > 3 / 2 then 1 else 0) + countPausas (s2 :: rest)
  | _ => 0

/-- The fluency record `main.py` builds when no `ZeroDivisionError`
occurs. -/
def mainFluidezVal (t : Transcription) : Fluidez :=
  { palabras_por_minuto :=
      pyRound2 (((pySplit t.text).length : ℚ) / (duracionOf t.segments / 60))
    numero_pausas := countPausas t.segments
    duracion_total_segundos := pyRound2 (duracionOf t.segments) }

/-- `calcular_fluidez` of `main.py`: the division raises
`ZeroDivisionError` exactly when the duration is `0` (possible only for a
non-empty segment list whose last segment ends at `0`; the empty-list
sentinel is `1`), and the error propagates to the caller. -/
def mainCalcularFluidez (t : Transcription) : Except Unit Fluidez :=
  if duracionOf t.segments = 0 then Except.error ()
  else Except.ok (mainFluidezVal t)

/-- `calcular_fluidez` of `analisis_appweb.py`: words-per-minute capped at
300, pause count capped at 20, reported duration capped at
`MAX_DURACION_AUDIO = 120`; its internal `try/except` turns the
zero-duration division error into the all-zero record, so it is total. -/
def appwebCalcularFluidez (t : Transcription) : Fluidez :=
  if duracionOf t.segments = 0 then
    { palabras_por_minuto := 0, numero_pausas := 0,
      duracion_total_segundos := 0 }
  else
    { palabras_por_minuto :=
        min (pyRound2 (((pySplit t.text).length : ℚ) /
          (duracionOf t.segments / 60))) 300
      numero_pausas := min (countPausas t.segments) 20
      duracion_total_segundos := pyRound2 (min (duracionOf t.segments) 120) }

/-- The `prev_end`-writing loop of `transcribir.py`:
`segments[i]['prev_end'] = segments[i-1]['end']` for every `i ≥ 1`
(each update reads the previous segment's `end`, which no update touches,
so the sequential loop equals this one-pass rewrite). -/
def setPrevEndsGo (prev : Segment) : List Segment → List Segment
  | [] => []
  | s :: rest => { s with prevEnd := some prev.stop } :: setPrevEndsGo s rest

/-- `setPrevEndsGo` started after the first segment, which keeps its
fields. -/
def setPrevEnds : List Segment → List Segment
  | [] => []
  | s :: rest => s :: setPrevEndsGo s rest

/-- The pause count of `transcribir.py`:
`len([seg for seg in segments if seg['start'] - seg.get('prev_end', 0) >
1.5])` over the segments with `prev_end` written — note the first segment
participates with default previous end `0`. -/
def transPausas (segments : List Segment) : Nat :=
  ((setPrevEnds segments).filter
    (fun s => decide (s.start - s.prevEnd.getD 0 > 3 / 2))).length

/-- `calcular_fluidez` of `transcribir.py`: the division comes before the
`prev_end` loop, so when it raises the segments are left unmodified;
otherwise the function returns the fluency record and has rewritten its
input's segment list in place. -/
def transCalcularFluidez (t : Transcription) :
    Except Unit Fluidez × Transcription :=
  if duracionOf t.segments = 0 then (Except.error (), t)
  else
    (Except.ok
      { palabras_por_minuto :=
          pyRound2 (((pySplit t.text).length : ℚ) /
            (duracionOf t.segments / 60))
        numero_pausas := transPausas t.segments
        duracion_total_segundos := pyRound2 (duracionOf t.segments) },
      { t with segments := setPrevEnds t.segments })

/-- Modelled from the spec: the claimed pause count — the number of
consecutive pairs `(segment[i-1], segment[i])` with `i ≥ 1` whose gap
strictly exceeds 1.5 seconds. -/
def specPauseCount (segments : List Segment) : Nat :=
  ((segments.zip segments.tail).filter
    (fun p => decide (p.2.start - p.1.stop > 3 / 2))).length

/-- Outcomes of the external collaborators during one job run.
`persistOk` matters only to `main.py` (whose `guardar_*` calls may raise);
`analisis_appweb.py`'s `guardar_resultados` catches internally.
`audioDur` is `librosa.get_duration`, checked only by `analisis_appweb.py`. -/
structure Env where
  pdfOk : Bool
  audioOk : Bool
  audioDur : ℚ
  transcribeOk : Bool
  persistOk : Bool

/-- The observable job state: whether the two temporary files exist, and
the busy flag `analisis_en_curso`. -/
structure JobState where
  pdfExists : Bool
  audioExists : Bool
  busy : Bool
deriving DecidableEq, Repr

/-- The `try` body of `realizar_analisis_completo` in `main.py`.
`descargar_archivo` opens the local file for writing (creating it) before
the download, so even a failed download leaves the file behind; the
`os.remove` cleanup sits at the end of the success path only, so any
raised step skips it. -/
def mainRealizarBody (env : Env) (s : JobState) : JobState :=
  let s1 := { s with pdfExists := true }
  if env.pdfOk = false then s1
  else
    let s2 := { s1 with audioExists := true }
    if env.audioOk = false then s2
    else if env.transcribeOk = false then s2
    else if env.persistOk = false then s2
    else { s2 with pdfExists := false, audioExists := false }

/-- `realizar_analisis_completo` of `main.py`: the `except` block prints and
re-raises; the `finally` block only clears the busy flag. -/
def mainRealizar (env : Env) (s : JobState) : JobState :=
  { mainRealizarBody env s with busy := false }

/-- The `try` body of `realizar_analisis_completo` in `analisis_appweb.py`:
downloads, the 120-second duration ceiling, then transcription;
`guardar_resultados` cannot raise. -/
def appwebRealizarBody (env : Env) (s : JobState) : JobState :=
  let s1 := { s with pdfExists := true }
  if env.pdfOk = false then s1
  else
    let s2 := { s1 with audioExists := true }
    if env.audioOk = false then s2
    else if env.audioDur > 120 then s2
    else if env.transcribeOk = false then s2
    else s2

/-- `realizar_analisis_completo` of `analisis_appweb.py`: the `finally`
block removes both temporary files when they exist (swallowing removal
errors) and clears the busy flag, on every exit path. -/
def appwebRealizar (env : Env) (s : JobState) : JobState :=
  { appwebRealizarBody env s with
      pdfExists := false, audioExists := false, busy := false }

/-- A raised `HTTPException` (status code and detail). -/
structure HTTPExc where
  status : Nat
  detail : String
deriving DecidableEq, Repr

/-- `str(e)` for a starlette/FastAPI `HTTPException`:
`f"{self.status_code}: {self.detail}"`. -/
def strOfHTTPExc (e : HTTPExc) : String :=
  toString e.status ++ ": " ++ e.detail

/-- Python's `s[:200]`. -/
def pyTake200 (s : String) : String := String.mk (s.toList.take 200)

/-- The busy message of `main.py`. -/
def busyMsgMain : String :=
  "Solo puede procesar un audio a la vez en el plan gratuito"

/-- The busy message of `analisis_appweb.py`. -/
def busyMsgApp : String :=
  "El servicio está ocupado. Solo puede procesar un audio a la vez en el plan gratuito"

/-- The endpoint's `try` block, given the busy flag: either raise the 429
`HTTPException`, or set the flag, schedule the background task and return.
The `ok` payload is (task scheduled, busy flag after). -/
def programarBody (busyMsg : String) (busy : Bool) :
    Except HTTPExc (Bool × Bool) :=
  if busy then Except.error ⟨429, busyMsg⟩ else Except.ok (true, true)

/-- The observable endpoint outcome: the HTTP status the caller sees (200
on a normal return, else the status of the `HTTPException` that reached
FastAPI), its detail, whether a background task was scheduled, and the busy
flag afterwards. -/
structure EndpointOutcome where
  httpStatus : Nat
  detail : String
  scheduled : Bool
  busyAfter : Bool
deriving DecidableEq, Repr

/-- `programar_analisis` of `main.py`: `HTTPException` subclasses
`Exception`, so the endpoint's own `except Exception as e` catches the 429
raise and re-raises `HTTPException(status_code=500, detail=str(e)[:200])`. -/
def mainProgramar (busy : Bool) : EndpointOutcome :=
  match programarBody busyMsgMain busy with
  | Except.ok (sched, newBusy) => ⟨200, "", sched, newBusy⟩
  | Except.error e => ⟨500, pyTake200 (strOfHTTPExc e), false, busy⟩

/-- `programar_analisis` of `analisis_appweb.py` (no `[:200]` truncation of
the detail). -/
def appwebProgramar (busy : Bool) : EndpointOutcome :=
  match programarBody busyMsgApp busy with
  | Except.ok (sched, newBusy) => ⟨200, "", sched, newBusy⟩
  | Except.error e => ⟨500, strOfHTTPExc e, false, busy⟩

/-- Model of Python's `str.lower()` on the alphabet the program processes:
ASCII letters and the accented Spanish letters; every other character is
left unchanged. -/
def pyToLower (c : Char) : Char :=
  if 'A' ≤ c ∧ c ≤ 'Z' then Char.ofNat (c.toNat + 32)
  else if c = 'Á' then 'á'
  else if c = 'É' then 'é'
  else if c = 'Í' then 'í'
  else if c = 'Ó' then 'ó'
  else if c = 'Ú' then 'ú'
  else if c = 'Ñ' then 'ñ'
  else if c = 'Ü' then 'ü'
  else c

/-- Model of the regex class `\w` (Python 3, `re.UNICODE`) on the alphabet
the program processes: ASCII alphanumerics, underscore, and the accented
Spanish letters. -/
def isWordChar (c : Char) : Bool :=
  c.isAlphanum || c == '_' ||
    decide (c ∈ ['á', 'é', 'í', 'ó', 'ú', 'ñ', 'ü',
                 'Á', 'É', 'Í', 'Ó', 'Ú', 'Ñ', 'Ü'])

/-- The keep predicate of `re.sub(r"[^\w\s]", "", ...)` in `main.py` and
`transcribir.py`: keep word characters and whitespace.  (Python's `\s` also
matches `\x0b`/`\f`, which `Char.isWhitespace` does not; none occur in the
processed texts.) -/
def keepChar (c : Char) : Bool := isWordChar c || c.isWhitespace

/-- The keep predicate of `re.sub(r"[^\w\sáéíóúñ]", "", ...)` in
`analisis_appweb.py`: the explicitly listed accented letters are already
word characters. -/
def keepCharApp (c : Char) : Bool :=
  isWordChar c || c.isWhitespace || decide (c ∈ ['á', 'é', 'í', 'ó', 'ú', 'ñ'])

/-- `str.strip()` on the character list: drop leading and trailing
whitespace. -/
def pyStrip (l : List Char) : List Char :=
  ((l.dropWhile Char.isWhitespace).reverse.dropWhile
    Char.isWhitespace).reverse

/-- `normalizar_texto` of `main.py` and `transcribir.py`:
`re.sub(r"[^\w\s]", "", texto.lower()).strip()`. -/
def normalizarTexto (texto : String) : String :=
  String.mk (pyStrip ((texto.toList.map pyToLower).filter keepChar))

/-- `normalizar_texto` of `analisis_appweb.py`:
`re.sub(r"[^\w\sáéíóúñ]", "", texto.lower()).strip()`. -/
def normalizarTextoApp (texto : String) : String :=
  String.mk (pyStrip ((texto.toList.map pyToLower).filter keepCharApp))

/-! ## Verification of the claims -/

/-- Invariant preservation through a left fold. -/
theorem foldlInv {β γ : Type} (P : γ → Prop) (f : γ → β → γ) :
    ∀ (l : List β) (c : γ), P c → (∀ d x, x ∈ l → P d → P (f d x)) →
      P (l.foldl f c)
  | [], _, h, _ => h
  | x :: l, c, h, hf =>
    foldlInv P f l (f c x) (hf c x (List.mem_cons_self x l) h)
      (fun d y hy hd => hf d y (List.mem_cons_of_mem x hy) hd)

theorem mlGo_le_fuel (a b : List String) (bhi : Nat) :
    ∀ fuel i j, mlGo a b bhi fuel i j ≤ fuel
  | 0, _, _ => Nat.le_refl 0
  | fuel + 1, i, j => by
    rw [mlGo]
    split
    · exact Nat.succ_le_succ (mlGo_le_fuel a b bhi fuel (i + 1) (j + 1))
    · exact Nat.zero_le _

theorem mlGo_j_bound (a b : List String) (bhi : Nat) :
    ∀ fuel i j, j ≤ bhi → j + mlGo a b bhi fuel i j ≤ bhi
  | 0, _, j, h => by simpa [mlGo] using h
  | fuel + 1, i, j, h => by
    rw [mlGo]
    split
    · rename_i hcond
      have := mlGo_j_bound a b bhi fuel (i + 1) (j + 1) hcond.1
      omega
    · omega

theorem matchLenFrom_i_bound (a b : List String) (ahi bhi i j : Nat)
    (h : i ≤ ahi) : i + matchLenFrom a b ahi bhi i j ≤ ahi := by
  have := mlGo_le_fuel a b bhi (ahi - i) i j
  unfold matchLenFrom
  omega

theorem matchLenFrom_j_bound (a b : List String) (ahi bhi i j : Nat)
    (h : j ≤ bhi) : j + matchLenFrom a b ahi bhi i j ≤ bhi :=
  mlGo_j_bound a b bhi (ahi - i) i j h

theorem findLongestMatch_bounds (a b : List String) (alo ahi blo bhi : Nat)
    (ha : alo ≤ ahi) (hb : blo ≤ bhi) :
    FlmBounds alo ahi blo bhi (findLongestMatch a b alo ahi blo bhi) := by
  unfold findLongestMatch
  apply foldlInv
  · exact ⟨Nat.le_refl _, by simpa using ha, Nat.le_refl _, by simpa using hb⟩
  · intro best i hi hbest
    apply foldlInv
    · exact hbest
    · intro d j hj hd
      unfold flmStep
      split
      · obtain ⟨hi1, hi2⟩ := List.mem_range'_1.mp hi
        obtain ⟨hj1, hj2⟩ := List.mem_range'_1.mp hj
        refine ⟨hi1, ?_, hj1, ?_⟩
        · exact matchLenFrom_i_bound a b ahi bhi i j (by omega)
        · exact matchLenFrom_j_bound a b ahi bhi i j (by omega)
      · exact hd

theorem BChain.mono {s s' e : Nat × Nat} (h1 : s'.1 ≤ s.1) (h2 : s'.2 ≤ s.2) :
    ∀ {l : List (Nat × Nat × Nat)}, BChain s l e → BChain s' l e
  | [], hc => ⟨Nat.le_trans h1 hc.1, Nat.le_trans h2 hc.2⟩
  | (_, _, _) :: _, hc =>
    ⟨Nat.le_trans h1 hc.1, Nat.le_trans h2 hc.2.1, hc.2.2⟩

theorem BChain.glueBlocks {s m e : Nat × Nat} :
    ∀ {l1 l2 : List (Nat × Nat × Nat)}, BChain s l1 m → BChain m l2 e →
      BChain s (l1 ++ l2) e
  | [], _, h1, h2 => h2.mono h1.1 h1.2
  | (_, _, _) :: _, _, h1, h2 => ⟨h1.1, h1.2.1, BChain.glueBlocks h1.2.2 h2⟩

theorem mbGo_chain (a b : List String) :
    ∀ fuel alo ahi blo bhi, alo ≤ ahi → blo ≤ bhi →
      BChain (alo, blo) (mbGo a b fuel alo ahi blo bhi) (ahi, bhi)
  | 0, _, _, _, _, ha, hb => ⟨ha, hb⟩
  | fuel + 1, alo, ahi, blo, bhi, ha, hb => by
    rcases hflm : findLongestMatch a b alo ahi blo bhi with ⟨i, j, k⟩
    have hbd := findLongestMatch_bounds a b alo ahi blo bhi ha hb
    rw [hflm] at hbd
    obtain ⟨h1, h2, h3, h4⟩ := hbd
    simp only at h1 h2 h3 h4
    rw [mbGo, hflm]
    dsimp only
    by_cases hk : k = 0
    · rw [if_pos hk]
      exact ⟨ha, hb⟩
    · rw [if_neg hk]
      have hleft : BChain (alo, blo)
          (if alo < i ∧ blo < j then mbGo a b fuel alo i blo j else [])
          (i, j) := by
        split
        · exact mbGo_chain a b fuel alo i blo j h1 h3
        · exact ⟨h1, h3⟩
      have hright : BChain (i + k, j + k)
          (if i + k < ahi ∧ j + k < bhi then
            mbGo a b fuel (i + k) ahi (j + k) bhi
           else [])
          (ahi, bhi) := by
        split
        · exact mbGo_chain a b fuel (i + k) ahi (j + k) bhi h2 h4
        · exact ⟨h2, h4⟩
      exact hleft.glueBlocks ⟨Nat.le_refl _, Nat.le_refl _, hright⟩

theorem mergeFrom_chain :
    ∀ (l : List (Nat × Nat × Nat)) (i1 j1 k1 : Nat) (e : Nat × Nat),
      BChain (i1 + k1, j1 + k1) l e → BChain (i1, j1) (mergeFrom (i1, j1, k1) l) e
  | [], i1, j1, k1, e, h => by
    rw [mergeFrom]
    obtain ⟨h1, h2⟩ := h
    simp only at h1 h2
    split
    · exact ⟨Nat.le_refl _, Nat.le_refl _, h1, h2⟩
    · exact ⟨by omega, by omega⟩
  | (i2, j2, k2) :: rest, i1, j1, k1, e, h => by
    obtain ⟨hi, hj, hrest⟩ := h
    simp only at hi hj
    rw [mergeFrom]
    split
    · rename_i hadj
      apply mergeFrom_chain rest i1 j1 (k1 + k2)
      have e1 : i1 + (k1 + k2) = i2 + k2 := by omega
      have e2 : j1 + (k1 + k2) = j2 + k2 := by omega
      rw [e1, e2]
      exact hrest
    · have hm : BChain (i2, j2) (mergeFrom (i2, j2, k2) rest) e :=
        mergeFrom_chain rest i2 j2 k2 e hrest
      split
      · exact BChain.glueBlocks ⟨Nat.le_refl _, Nat.le_refl _, hi, hj⟩ hm
      · rw [List.nil_append]
        exact hm.mono (show i1 ≤ i2 by omega) (show j1 ≤ j2 by omega)

theorem OpChain.glueOps {i j m n p q : Nat} :
    ∀ {l1 l2 : List Opcode}, OpChain i j l1 m n → OpChain m n l2 p q →
      OpChain i j (l1 ++ l2) p q
  | [], _, h1, h2 => h1.1 ▸ h1.2 ▸ h2
  | _ :: _, _, h1, h2 =>
    ⟨h1.1, h1.2.1, h1.2.2.1, h1.2.2.2.1, OpChain.glueOps h1.2.2.2.2 h2⟩

/-- One iteration of the `get_opcodes` loop preserves the chain. -/
theorem opcodesBlockStep (i j ai bj size la lb : Nat)
    (hia : i ≤ ai) (hjb : j ≤ bj) (rest : List Opcode)
    (hrest : OpChain (ai + size) (bj + size) rest la lb) :
    OpChain i j
      (((if i < ai ∧ j < bj then [⟨Tag.replace, i, ai, j, bj⟩]
         else if i < ai then [⟨Tag.delete, i, ai, j, bj⟩]
         else if j < bj then [⟨Tag.insert, i, ai, j, bj⟩]
         else []) ++
        (if size ≠ 0 then [⟨Tag.equal, ai, ai + size, bj, bj + size⟩]
         else [])) ++ rest)
      la lb := by
  have htag : OpChain i j
      (if i < ai ∧ j < bj then [⟨Tag.replace, i, ai, j, bj⟩]
       else if i < ai then [⟨Tag.delete, i, ai, j, bj⟩]
       else if j < bj then [⟨Tag.insert, i, ai, j, bj⟩]
       else []) ai bj := by
    split
    · exact ⟨rfl, rfl, hia, hjb, rfl, rfl⟩
    · split
      · exact ⟨rfl, rfl, hia, hjb, rfl, rfl⟩
      · split
        · exact ⟨rfl, rfl, hia, hjb, rfl, rfl⟩
        · rename_i hc1 hc2 hc3
          exact ⟨by omega, by omega⟩
  have hequal : OpChain ai bj
      (if size ≠ 0 then [⟨Tag.equal, ai, ai + size, bj, bj + size⟩] else [])
      (ai + size) (bj + size) := by
    split
    · exact ⟨rfl, rfl, Nat.le_add_right _ _, Nat.le_add_right _ _, rfl, rfl⟩
    · rename_i hsz
      have h0 : size = 0 := by omega
      subst h0
      exact ⟨rfl, rfl⟩
  exact (htag.glueOps hequal).glueOps hrest

theorem opcodesFromBlocks_chain :
    ∀ (bs : List (Nat × Nat × Nat)) (i j la lb : Nat),
      BChain (i, j) bs (la, lb) →
      OpChain i j (opcodesFromBlocks i j (bs ++ [(la, lb, 0)])) la lb
  | [], i, j, la, lb, h => by
    obtain ⟨h1, h2⟩ := h
    simp only at h1 h2
    rw [List.nil_append, opcodesFromBlocks]
    have hnil : OpChain (la + 0) (lb + 0)
        (opcodesFromBlocks (la + 0) (lb + 0) []) la lb := ⟨rfl, rfl⟩
    exact opcodesBlockStep i j la lb 0 la lb h1 h2 _ hnil
  | (ai, bj, k) :: rest, i, j, la, lb, h => by
    obtain ⟨hi, hj, hrest⟩ := h
    simp only at hi hj
    rw [List.cons_append, opcodesFromBlocks]
    exact opcodesBlockStep i j ai bj k la lb hi hj _
      (opcodesFromBlocks_chain rest (ai + k) (bj + k) la lb hrest)

theorem OpChain.i1_ge {i j i2 j2 : Nat} :
    ∀ {ops : List Opcode}, OpChain i j ops i2 j2 → ∀ op ∈ ops, i ≤ op.i1
  | [], _, op, hop => absurd hop (List.not_mem_nil op)
  | q :: rest, h, op, hop => by
    rcases List.mem_cons.mp hop with heq | hmem
    · subst heq
      exact Nat.le_of_eq h.1.symm
    · exact Nat.le_trans h.2.2.1 (h.2.2.2.2.i1_ge op hmem)

theorem OpChain.j1_ge {i j i2 j2 : Nat} :
    ∀ {ops : List Opcode}, OpChain i j ops i2 j2 → ∀ op ∈ ops, j ≤ op.j1
  | [], _, op, hop => absurd hop (List.not_mem_nil op)
  | q :: rest, h, op, hop => by
    rcases List.mem_cons.mp hop with heq | hmem
    · subst heq
      exact Nat.le_of_eq h.2.1.symm
    · exact Nat.le_trans h.2.2.2.1 (h.2.2.2.2.j1_ge op hmem)

theorem OpChain.refHits_eq_one {x la lb : Nat} :
    ∀ {i j : Nat} {ops : List Opcode}, OpChain i j ops la lb →
      i ≤ x → x < la → refHits x ops = 1
  | i, j, [], h, hx, hla => by
    obtain ⟨h1, _⟩ := h
    omega
  | i, j, op :: rest, h, hx, hla => by
    obtain ⟨e1, e2, hle1, hle2, hrest⟩ := h
    rw [refHits, List.countP_cons]
    by_cases hcase : x < op.i2
    · have hps : (fun op => decide (op.i1 ≤ x ∧ x < op.i2)) op = true := by
        simp [e1, hx, hcase]
      rw [if_pos hps]
      have hz : List.countP (fun op => decide (op.i1 ≤ x ∧ x < op.i2)) rest
          = 0 := by
        apply List.countP_eq_zero.mpr
        intro q hq
        have := hrest.i1_ge q hq
        simp only [decide_eq_true_eq]
        omega
      rw [hz]
    · have hps : (fun op => decide (op.i1 ≤ x ∧ x < op.i2)) op = false := by
        simp [hcase]
      rw [if_neg (by simp [hps])]
      exact hrest.refHits_eq_one (by omega) hla

theorem OpChain.hypHits_eq_one {y la lb : Nat} :
    ∀ {i j : Nat} {ops : List Opcode}, OpChain i j ops la lb →
      j ≤ y → y < lb → hypHits y ops = 1
  | i, j, [], h, hy, hlb => by
    obtain ⟨_, h2⟩ := h
    omega
  | i, j, op :: rest, h, hy, hlb => by
    obtain ⟨e1, e2, hle1, hle2, hrest⟩ := h
    rw [hypHits, List.countP_cons]
    by_cases hcase : y < op.j2
    · have hps : (fun op => decide (op.j1 ≤ y ∧ y < op.j2)) op = true := by
        simp [e2, hy, hcase]
      rw [if_pos hps]
      have hz : List.countP (fun op => decide (op.j1 ≤ y ∧ y < op.j2)) rest
          = 0 := by
        apply List.countP_eq_zero.mpr
        intro q hq
        have := hrest.j1_ge q hq
        simp only [decide_eq_true_eq]
        omega
      rw [hz]
    · have hps : (fun op => decide (op.j1 ≤ y ∧ y < op.j2)) op = false := by
        simp [hcase]
      rw [if_neg (by simp [hps])]
      exact hrest.hypHits_eq_one (by omega) hlb

/-- C2: for every pair of token sequences, the opcode list produced by the
aligner partitions `[0, len ref)` and `[0, len hyp)` exactly: consecutive
opcodes have monotonically non-decreasing, gap-free, non-overlapping ranges
(`OpChain`, each opcode starting exactly where the previous one ended and
the last ending at the sequence lengths), so every index of both sequences
belongs to exactly one opcode. -/
theorem c2_opcodes_partition (a b : List String) :
    OpChain 0 0 (getOpcodes a b) a.length b.length ∧
    (∀ x, x < a.length → refHits x (getOpcodes a b) = 1) ∧
    (∀ y, y < b.length → hypHits y (getOpcodes a b) = 1) := by
  have hblocks : BChain (0, 0) (matchingBlocks a b) (a.length, b.length) :=
    mbGo_chain a b _ 0 a.length 0 b.length (Nat.zero_le _) (Nat.zero_le _)
  have hmerged : BChain (0, 0) (mergeFrom (0, 0, 0) (matchingBlocks a b))
      (a.length, b.length) :=
    mergeFrom_chain (matchingBlocks a b) 0 0 0 _ hblocks
  have hop : OpChain 0 0 (getOpcodes a b) a.length b.length := by
    unfold getOpcodes getMatchingBlocks
    exact opcodesFromBlocks_chain _ 0 0 _ _ hmerged
  exact ⟨hop, fun x hx => hop.refHits_eq_one (Nat.zero_le _) hx,
    fun y hy => hop.hypHits_eq_one (Nat.zero_le _) hy⟩

/-- Witness for C2 at a concrete input. -/
theorem c2_opcodes_partition_witness :
    0 < (["el", "gato"] : List String).length ∧
    refHits 0 (getOpcodes ["el", "gato"] ["el", "perro"]) = 1 :=
  ⟨by decide,
    (c2_opcodes_partition ["el", "gato"] ["el", "perro"]).2.1 0 (by decide)⟩

theorem mlGo_self (a : List String) :
    ∀ fuel i, fuel = a.length - i → i ≤ a.length →
      mlGo a a a.length fuel i i = fuel
  | 0, _, _, _ => rfl
  | fuel + 1, i, hf, _ => by
    have hlt : i < a.length := by omega
    rw [mlGo, if_pos]
    · rw [mlGo_self a fuel (i + 1) (by omega) (by omega)]
    · refine ⟨hlt, ?_, rfl⟩
      rw [List.get?_eq_get hlt]
      rfl

theorem matchLenFrom_self (a : List String) (i : Nat) (h : i ≤ a.length) :
    matchLenFrom a a a.length a.length i i = a.length - i :=
  mlGo_self a (a.length - i) i rfl h

/-- A fold whose step fixes `c` returns `c`. -/
theorem foldlFixed {β γ : Type} (f : γ → β → γ) (c : γ) :
    ∀ l : List β, (∀ x ∈ l, f c x = c) → l.foldl f c = c
  | [], _ => rfl
  | x :: l, h => by
    rw [List.foldl_cons, h x (List.mem_cons_self x l)]
    exact foldlFixed f c l (fun y hy => h y (List.mem_cons_of_mem x hy))

theorem flmStep_fixed (a b : List String) (n i j : Nat) :
    flmStep a b n n i (0, 0, n) j = (0, 0, n) := by
  have h1 := mlGo_le_fuel a b n (n - i) i j
  have h2 : ¬((0, 0, n) : Nat × Nat × Nat).2.2 < matchLenFrom a b n n i j := by
    show ¬ n < matchLenFrom a b n n i j
    unfold matchLenFrom
    omega
  unfold flmStep
  rw [if_neg h2]

theorem findLongestMatch_self (a : List String) (m : Nat)
    (hm : a.length = m + 1) :
    findLongestMatch a a 0 a.length 0 a.length = (0, 0, a.length) := by
  have hmatch : matchLenFrom a a a.length a.length 0 0 = a.length := by
    simpa using matchLenFrom_self a 0 (Nat.zero_le _)
  have hstep0 : flmStep a a a.length a.length 0 (0, 0, 0) 0 =
      (0, 0, a.length) := by
    unfold flmStep
    rw [hmatch, if_pos]
    show (0 : Nat) < a.length
    omega
  have hrange : List.range' 0 a.length = 0 :: List.range' 1 m := by
    rw [hm, List.range'_succ]
  have hinner0 : List.foldl (flmStep a a a.length a.length 0) (0, 0, 0)
      (0 :: List.range' 1 m) = (0, 0, a.length) := by
    rw [List.foldl_cons, hstep0]
    exact foldlFixed _ _ _ (fun j _ => flmStep_fixed a a a.length 0 j)
  unfold findLongestMatch
  rw [Nat.sub_zero, hrange, List.foldl_cons, hinner0]
  exact foldlFixed _ _ _
    (fun i _ => foldlFixed _ _ _ (fun j _ => flmStep_fixed a a a.length i j))

theorem matchingBlocks_self (a : List String) (m : Nat)
    (hm : a.length = m + 1) :
    matchingBlocks a a = [(0, 0, a.length)] := by
  unfold matchingBlocks
  rw [mbGo, findLongestMatch_self a m hm]
  dsimp only
  rw [if_neg (by omega : ¬ a.length = 0)]
  rw [if_neg (by omega : ¬ ((0 : Nat) < 0 ∧ (0 : Nat) < 0))]
  rw [if_neg (by omega : ¬ (0 + a.length < a.length ∧ 0 + a.length < a.length))]
  rfl

theorem getMatchingBlocks_self (a : List String) (m : Nat)
    (hm : a.length = m + 1) :
    getMatchingBlocks a a = [(0, 0, a.length), (a.length, a.length, 0)] := by
  unfold getMatchingBlocks
  rw [matchingBlocks_self a m hm]
  rw [mergeFrom, if_pos ⟨rfl, rfl⟩, mergeFrom]
  rw [if_pos (by omega : 0 + a.length ≠ 0)]
  simp [Nat.zero_add]

theorem getOpcodes_self (a : List String) (m : Nat) (hm : a.length = m + 1) :
    getOpcodes a a = [⟨Tag.equal, 0, a.length, 0, a.length⟩] := by
  unfold getOpcodes
  rw [getMatchingBlocks_self a m hm]
  rw [opcodesFromBlocks]
  rw [if_neg (by omega : ¬ ((0 : Nat) < 0 ∧ (0 : Nat) < 0))]
  rw [if_neg (by omega : ¬ (0 : Nat) < 0)]
  rw [if_neg (by omega : ¬ (0 : Nat) < 0)]
  rw [if_pos (by omega : ¬ a.length = 0)]
  rw [opcodesFromBlocks]
  rw [if_neg (by omega :
    ¬ (0 + a.length < a.length ∧ 0 + a.length < a.length))]
  rw [if_neg (by omega : ¬ 0 + a.length < a.length)]
  rw [if_neg (by omega : ¬ 0 + a.length < a.length)]
  rw [if_neg (by simp : ¬ (0 : Nat) ≠ 0)]
  simp [Nat.zero_add, opcodesFromBlocks]

theorem ratFloor_intCast (m : ℤ) : ratFloor (m : ℚ) = m := by
  simp [ratFloor, Rat.num_intCast, Rat.den_intCast, Int.fdiv_one]

theorem roundHalfEven_intCast (m : ℤ) : roundHalfEven (m : ℚ) = m := by
  simp only [roundHalfEven, ratFloor_intCast, sub_self]
  norm_num

theorem pyRound2_intCast (m : ℤ) : pyRound2 (m : ℚ) = m := by
  have h1 : ((m : ℚ) * 100) = ((m * 100 : ℤ) : ℚ) := by push_cast; ring
  rw [pyRound2, h1, roundHalfEven_intCast]
  push_cast
  rw [mul_div_assoc]
  norm_num

theorem pyRound2_num (n : ℕ) : pyRound2 (n : ℚ) = n := by
  have := pyRound2_intCast (n : ℤ)
  push_cast at this
  exact this

theorem pyRound2_hundred : pyRound2 100 = 100 := by
  have := pyRound2_num 100
  push_cast at this
  convert this <;> norm_num

theorem mainFold_correctas (refWords audioWords : List String) :
    ∀ (ops : List Opcode) (acc : MainAcc),
      (ops.foldl (mainStep refWords audioWords) acc).correctas =
        acc.correctas + (ops.map
          (fun op => if op.tag = Tag.equal then op.i2 - op.i1 else 0)).sum
  | [], acc => by simp
  | op :: ops, acc => by
    rw [List.foldl_cons, mainFold_correctas refWords audioWords ops,
      List.map_cons, List.sum_cons]
    by_cases h : op.tag = Tag.equal <;> simp [mainStep, h] <;> omega

theorem mainFold_incorrectas (refWords audioWords : List String) :
    ∀ (ops : List Opcode) (acc : MainAcc),
      (ops.foldl (mainStep refWords audioWords) acc).incorrectas =
        acc.incorrectas + (ops.map
          (fun op => if op.tag = Tag.equal then 0
            else max (op.i2 - op.i1) (op.j2 - op.j1))).sum
  | [], acc => by simp
  | op :: ops, acc => by
    rw [List.foldl_cons, mainFold_incorrectas refWords audioWords ops,
      List.map_cons, List.sum_cons]
    by_cases h : op.tag = Tag.equal <;> simp [mainStep, h] <;> omega

theorem transFold_correctas (refWords audioWords : List String) :
    ∀ (ops : List Opcode) (acc : List DifRecord × Nat × Nat),
      (ops.foldl (transStep refWords audioWords) acc).2.1 =
        acc.2.1 + (ops.map
          (fun op => if op.tag = Tag.equal then op.i2 - op.i1 else 0)).sum
  | [], acc => by simp
  | op :: ops, acc => by
    rw [List.foldl_cons, transFold_correctas refWords audioWords ops,
      List.map_cons, List.sum_cons]
    by_cases h : op.tag = Tag.equal <;> simp [transStep, h] <;> omega

theorem transFold_incorrectas (refWords audioWords : List String) :
    ∀ (ops : List Opcode) (acc : List DifRecord × Nat × Nat),
      (ops.foldl (transStep refWords audioWords) acc).2.2 =
        acc.2.2 + (ops.map
          (fun op => if op.tag = Tag.equal then 0
            else max (op.i2 - op.i1) (op.j2 - op.j1))).sum
  | [], acc => by simp
  | op :: ops, acc => by
    rw [List.foldl_cons, transFold_incorrectas refWords audioWords ops,
      List.map_cons, List.sum_cons]
    by_cases h : op.tag = Tag.equal <;> simp [transStep, h] <;> omega

theorem appwebFold_correctas :
    ∀ (ops : List Opcode) (c : Nat),
      ops.foldl (fun acc op =>
        if op.tag = Tag.equal then acc + (op.i2 - op.i1) else acc) c =
      c + (ops.map
        (fun op => if op.tag = Tag.equal then op.i2 - op.i1 else 0)).sum
  | [], c => by simp
  | op :: ops, c => by
    rw [List.foldl_cons, appwebFold_correctas ops, List.map_cons,
      List.sum_cons]
    by_cases h : op.tag = Tag.equal <;> simp [h] <;> omega

theorem analizarListas_correctas (refWords audioWords : List String) :
    (analizarListas refWords audioWords).correctas =
      specCorrect refWords audioWords := by
  simp [analizarListas, specCorrect,
    mainFold_correctas refWords audioWords (getOpcodes refWords audioWords)
      ⟨[], 0, 0, []⟩]

theorem analizarListas_incorrectas (refWords audioWords : List String) :
    (analizarListas refWords audioWords).incorrectas =
      specIncorrect refWords audioWords := by
  simp [analizarListas, specIncorrect,
    mainFold_incorrectas refWords audioWords (getOpcodes refWords audioWords)
      ⟨[], 0, 0, []⟩]

theorem transAnalizarListas_correctas (refWords audioWords : List String) :
    (transAnalizarListas refWords audioWords).correctas =
      specCorrect refWords audioWords := by
  simp only [transAnalizarListas]
  rw [transFold_correctas refWords audioWords
    (getOpcodes refWords audioWords) ([], 0, 0)]
  simp [specCorrect]

theorem transAnalizarListas_incorrectas (refWords audioWords : List String) :
    (transAnalizarListas refWords audioWords).incorrectas =
      specIncorrect refWords audioWords := by
  simp only [transAnalizarListas]
  rw [transFold_incorrectas refWords audioWords
    (getOpcodes refWords audioWords) ([], 0, 0)]
  simp [specIncorrect]

theorem appwebCorrectas_spec (refWords audioWords : List String) :
    appwebCorrectas refWords audioWords =
      specCorrect (appwebWords refWords) (appwebWords audioWords) := by
  simp [appwebCorrectas, specCorrect,
    appwebFold_correctas
      (getOpcodes (appwebWords refWords) (appwebWords audioWords)) 0]

theorem analizarListas_precision (refWords audioWords : List String) :
    (analizarListas refWords audioWords).precision =
      specPrecision refWords audioWords := by
  simp only [analizarListas]
  rw [mainFold_correctas refWords audioWords
    (getOpcodes refWords audioWords) ⟨[], 0, 0, []⟩]
  rw [mainFold_incorrectas refWords audioWords
    (getOpcodes refWords audioWords) ⟨[], 0, 0, []⟩]
  simp [specPrecision, specCorrect, specIncorrect]

theorem transAnalizarListas_precision (refWords audioWords : List String) :
    (transAnalizarListas refWords audioWords).precision =
      specPrecision refWords audioWords := by
  simp only [transAnalizarListas]
  rw [transFold_correctas refWords audioWords
    (getOpcodes refWords audioWords) ([], 0, 0)]
  rw [transFold_incorrectas refWords audioWords
    (getOpcodes refWords audioWords) ([], 0, 0)]
  simp [specPrecision, specCorrect, specIncorrect]

/-- C1, corrected, amended part: the `main.py` and `transcribir.py` variants
of `analizar_diferencias` aggregate exactly as the claim states — `i2 - i1`
per `equal` opcode into the correct count, `max(i2-i1, j2-j1)` per
non-`equal` opcode into the incorrect count, precision
`round(correct/(correct+incorrect)*100, 2)` with `0` on an empty
denominator, and correct+incorrect can exceed `len(ref_tokens)` — but the
`analisis_appweb.py` variant does not: it truncates both inputs to 500
tokens and computes `incorrectas = len(ref_words) - correctas` and
`precision = round(correctas/len(ref_words)*100, 2)` instead. -/
theorem c1_amended (refWords audioWords : List String) :
    (analizarListas refWords audioWords).correctas =
      specCorrect refWords audioWords ∧
    (analizarListas refWords audioWords).incorrectas =
      specIncorrect refWords audioWords ∧
    (analizarListas refWords audioWords).precision =
      specPrecision refWords audioWords ∧
    (transAnalizarListas refWords audioWords).correctas =
      specCorrect refWords audioWords ∧
    (transAnalizarListas refWords audioWords).incorrectas =
      specIncorrect refWords audioWords ∧
    (transAnalizarListas refWords audioWords).precision =
      specPrecision refWords audioWords ∧
    (appwebAnalizarListas refWords audioWords).correctas =
      specCorrect (appwebWords refWords) (appwebWords audioWords) ∧
    (appwebAnalizarListas refWords audioWords).incorrectas =
      appwebTotal refWords -
        specCorrect (appwebWords refWords) (appwebWords audioWords) ∧
    (appwebAnalizarListas refWords audioWords).precision =
      (if appwebTotal refWords > 0 then
        pyRound2
          ((specCorrect (appwebWords refWords) (appwebWords audioWords) : ℚ) /
            ((appwebTotal refWords : Nat) : ℚ) * 100)
      else 0) ∧
    specCorrect ["a"] ["a", "b"] + specIncorrect ["a"] ["a", "b"] >
      (["a"] : List String).length := by
  refine ⟨analizarListas_correctas refWords audioWords,
    analizarListas_incorrectas refWords audioWords,
    analizarListas_precision refWords audioWords,
    transAnalizarListas_correctas refWords audioWords,
    transAnalizarListas_incorrectas refWords audioWords,
    transAnalizarListas_precision refWords audioWords,
    ?_, ?_, ?_, by decide⟩
  · simp only [appwebAnalizarListas]
    exact appwebCorrectas_spec refWords audioWords
  · simp only [appwebAnalizarListas]
    rw [appwebCorrectas_spec refWords audioWords]
  · simp only [appwebAnalizarListas]
    rw [appwebCorrectas_spec refWords audioWords]

/-- C1 counterexample: at reference `["a"]` and hypothesis `["a", "b"]`, the
`analisis_appweb.py` variant of `analizar_diferencias` returns
`incorrectas = 0` and `precision = 100`, while the claimed formula gives
`incorrect_count = 1` and `precision = 50`; so the claim does not hold for
every variant in the repository. -/
theorem c1_counterexample :
    (appwebAnalizarListas ["a"] ["a", "b"]).incorrectas = 0 ∧
    specIncorrect ["a"] ["a", "b"] = 1 ∧
    (appwebAnalizarListas ["a"] ["a", "b"]).precision = 100 ∧
    specPrecision ["a"] ["a", "b"] = 50 := by
  refine ⟨by decide, by decide, ?_, ?_⟩
  · have h1 : appwebCorrectas ["a"] ["a", "b"] = 1 := by decide
    have h2 : appwebTotal ["a"] = 1 := by decide
    simp only [appwebAnalizarListas, h1, h2]
    rw [if_pos (by norm_num)]
    rw [show ((1 : ℕ) : ℚ) / ((1 : ℕ) : ℚ) * 100 = 100 by norm_num]
    exact pyRound2_hundred
  · have h1 : specCorrect ["a"] ["a", "b"] = 1 := by decide
    have h2 : specIncorrect ["a"] ["a", "b"] = 1 := by decide
    simp only [specPrecision, h1, h2]
    rw [if_pos (by norm_num)]
    rw [show ((1 : ℕ) : ℚ) / ((1 + 1 : ℕ) : ℚ) * 100 = ((50 : ℕ) : ℚ) by
      norm_num]
    rw [pyRound2_num]
    norm_num

/-- C3 counterexample: for the empty token sequence, aligning it against
itself yields NO opcodes — not one `equal` opcode spanning both sequences —
and the resulting precision is `0`, not `100.0`. -/
theorem c3_counterexample :
    getOpcodes ([] : List String) [] = [] ∧
    (analizarListas ([] : List String) []).precision = 0 ∧
    (transAnalizarListas ([] : List String) []).precision = 0 := by
  have hops : getOpcodes ([] : List String) [] = [] := by decide
  refine ⟨hops, ?_, ?_⟩
  · simp [analizarListas, hops]
  · simp [transAnalizarListas, hops]

/-- C3, corrected, amended part: for every NONEMPTY token sequence `R`,
aligning `R` against itself yields exactly one `equal` opcode spanning both
sequences fully, and both the `main.py` and the `transcribir.py`
`analizar_diferencias` report precision `100`. -/
theorem c3_amended (w : String) (R : List String) :
    getOpcodes (w :: R) (w :: R) =
      [⟨Tag.equal, 0, R.length + 1, 0, R.length + 1⟩] ∧
    (analizarListas (w :: R) (w :: R)).precision = 100 ∧
    (transAnalizarListas (w :: R) (w :: R)).precision = 100 := by
  have hlen : (w :: R).length = R.length + 1 := by simp
  have hops := getOpcodes_self (w :: R) R.length hlen
  rw [hlen] at hops
  have hspecc : specCorrect (w :: R) (w :: R) = R.length + 1 := by
    simp [specCorrect, hops]
  have hspeci : specIncorrect (w :: R) (w :: R) = 0 := by
    simp [specIncorrect, hops]
  have hprec : specPrecision (w :: R) (w :: R) = 100 := by
    simp only [specPrecision, hspecc, hspeci]
    rw [if_pos (by omega)]
    rw [show ((R.length + 1 : ℕ) : ℚ) / ((R.length + 1 + 0 : ℕ) : ℚ) * 100
        = 100 by
      rw [Nat.add_zero]
      rw [div_self (by exact_mod_cast Nat.succ_ne_zero R.length)]
      norm_num]
    exact pyRound2_hundred
  exact ⟨hops,
    (analizarListas_precision (w :: R) (w :: R)).trans hprec,
    (transAnalizarListas_precision (w :: R) (w :: R)).trans hprec⟩

theorem countPausas_eq_spec :
    ∀ segments, countPausas segments = specPauseCount segments
  | [] => rfl
  | [_] => rfl
  | s1 :: s2 :: rest => by
    have ih := countPausas_eq_spec (s2 :: rest)
    rw [countPausas, ih]
    simp only [specPauseCount, List.tail_cons, List.zip_cons_cons,
      List.filter_cons]
    by_cases h : s2.start - s1.stop > 3 / 2
    · simp [h]
      omega
    · simp [h]

theorem setPrevEndsGo_pausas :
    ∀ (prev : Segment) (rest : List Segment),
      ((setPrevEndsGo prev rest).filter
        (fun s => decide (s.start - s.prevEnd.getD 0 > 3 / 2))).length =
      countPausas (prev :: rest)
  | _, [] => rfl
  | prev, s :: rest => by
    have ih := setPrevEndsGo_pausas s rest
    rw [setPrevEndsGo, List.filter_cons, countPausas]
    by_cases h : s.start - prev.stop > 3 / 2
    · simp [h, ih]
      omega
    · simp [h, ih]

theorem transPausas_nil : transPausas [] = 0 := rfl

theorem transPausas_cons (s : Segment) (rest : List Segment) :
    transPausas (s :: rest) =
      (if s.start - s.prevEnd.getD 0 > 3 / 2 then 1 else 0) +
        countPausas (s :: rest) := by
  rw [transPausas, setPrevEnds, List.filter_cons]
  by_cases h : s.start - s.prevEnd.getD 0 > 3 / 2
  · simp [h, setPrevEndsGo_pausas s rest]
    omega
  · simp [h, setPrevEndsGo_pausas s rest]

theorem setPrevEndsGo_startStop :
    ∀ (prev : Segment) (l : List Segment),
      (setPrevEndsGo prev l).map (fun s => (s.start, s.stop)) =
        l.map (fun s => (s.start, s.stop))
  | _, [] => rfl
  | prev, s :: rest => by
    rw [setPrevEndsGo, List.map_cons, List.map_cons,
      setPrevEndsGo_startStop s rest]

theorem setPrevEnds_startStop (l : List Segment) :
    (setPrevEnds l).map (fun s => (s.start, s.stop)) =
      l.map (fun s => (s.start, s.stop)) := by
  cases l with
  | nil => rfl
  | cons s rest =>
    rw [setPrevEnds, List.map_cons, List.map_cons,
      setPrevEndsGo_startStop s rest]

theorem setPrevEndsGo_prevEnds :
    ∀ (prev : Segment) (l : List Segment),
      (setPrevEndsGo prev l).map (fun s => s.prevEnd) =
        ((prev :: l).dropLast).map (fun s => some s.stop)
  | _, [] => rfl
  | prev, s :: rest => by
    rw [setPrevEndsGo, List.map_cons, setPrevEndsGo_prevEnds s rest]
    rw [List.dropLast_cons₂, List.map_cons]

theorem setPrevEnds_length (l : List Segment) :
    (setPrevEnds l).length = l.length := by
  have := congrArg List.length (setPrevEnds_startStop l)
  simpa using this

theorem duracionOf_nil : duracionOf [] = 1 := rfl

theorem duracionOf_concat (l : List Segment) (s : Segment) :
    duracionOf (l ++ [s]) = s.stop := by
  rw [duracionOf, List.getLast?_concat]

/-- C4 counterexample: with an empty segment list and a six-word
transcription, the `analisis_appweb.py` fluency calculator (one of the
variants the claim covers) returns `palabras_por_minuto = 300` — the cap —
while the claimed value `round(total_word_count/(1/60), 2)` is `360`. -/
theorem c4_counterexample :
    (appwebCalcularFluidez ⟨"a b c d e f", []⟩).palabras_por_minuto = 300 ∧
    pyRound2 (((pySplit "a b c d e f").length : ℚ) / (1 / 60)) = 360 := by
  have hn : (pySplit "a b c d e f").length = 6 := by decide
  have h360 : pyRound2 (((pySplit "a b c d e f").length : ℚ) / (1 / 60)) =
      360 := by
    rw [hn, show ((6 : ℕ) : ℚ) / (1 / 60) = ((360 : ℕ) : ℚ) by norm_num,
      pyRound2_num]
    norm_num
  refine ⟨?_, h360⟩
  rw [appwebCalcularFluidez]
  rw [if_neg (by rw [duracionOf_nil]; norm_num)]
  have : duracionOf ([] : List Segment) / 60 = 1 / 60 := by
    rw [duracionOf_nil]
  simp only [this, h360]
  norm_num

/-- C4, corrected, amended part: with an empty segment list every variant
uses the sentinel duration `1` and none raises a division error —
`main.py` and `transcribir.py` return
`round(total_word_count/(1/60), 2)` words per minute while
`analisis_appweb.py` returns that value capped at 300 — and for a
non-empty segment list the internal duration is the end time of the last
segment. -/
theorem c4_amended (txt : String) (segments : List Segment) (s : Segment) :
    mainCalcularFluidez ⟨txt, []⟩ = Except.ok (mainFluidezVal ⟨txt, []⟩) ∧
    (mainFluidezVal ⟨txt, []⟩).palabras_por_minuto =
      pyRound2 (((pySplit txt).length : ℚ) / (1 / 60)) ∧
    (transCalcularFluidez ⟨txt, []⟩).1.map (fun f => f.palabras_por_minuto) =
      Except.ok (pyRound2 (((pySplit txt).length : ℚ) / (1 / 60))) ∧
    (appwebCalcularFluidez ⟨txt, []⟩).palabras_por_minuto =
      min (pyRound2 (((pySplit txt).length : ℚ) / (1 / 60))) 300 ∧
    duracionOf (segments ++ [s]) = s.stop := by
  have hne : ¬ duracionOf ([] : List Segment) = 0 := by
    rw [duracionOf_nil]
    norm_num
  refine ⟨?_, ?_, ?_, ?_, duracionOf_concat segments s⟩
  · rw [mainCalcularFluidez, if_neg hne]
  · rw [mainFluidezVal]
    simp only [duracionOf_nil]
  · rw [transCalcularFluidez, if_neg hne]
    simp only [duracionOf_nil, Except.map]
  · rw [appwebCalcularFluidez, if_neg hne]
    simp only [duracionOf_nil]

/-- C5 counterexample: on the single segment `{start: 2, end: 3}`,
`transcribir.py`'s pause computation counts the first segment's own start
against the default previous end `0` and reports `numero_pausas = 1`, while
the claimed consecutive-pair count is `0`; so the claim does not hold for
every variant of `calcular_fluidez` in the repository. -/
theorem c5_counterexample :
    transPausas [⟨2, 3, none⟩] = 1 ∧
    specPauseCount [⟨2, 3, none⟩] = 0 ∧
    (transCalcularFluidez ⟨"x", [⟨2, 3, none⟩]⟩).1.map
      (fun f => f.numero_pausas) = Except.ok 1 := by
  have hd : duracionOf [(⟨2, 3, none⟩ : Segment)] = 3 := rfl
  have htp : transPausas [⟨2, 3, none⟩] = 1 := by
    rw [transPausas_cons]
    have h : ((2 : ℚ)) - (Option.getD none 0) > 3 / 2 := by
      norm_num [Option.getD]
    rw [if_pos h]
    rfl
  refine ⟨htp, rfl, ?_⟩
  rw [transCalcularFluidez, if_neg (by rw [hd]; norm_num)]
  simp only [Except.map, htp]

/-- C5, corrected, amended part: the `main.py` calculator's pause count is
exactly the claimed count over consecutive pairs (so the first segment's
start never contributes, and the claim's example gives 1);
`analisis_appweb.py` returns that count capped at 20 (and the zero record
when the duration is zero); `transcribir.py` additionally counts the first
segment itself whenever its start exceeds 1.5 s, the missing previous end
defaulting to 0. -/
theorem c5_amended (txt : String) (segments : List Segment)
    (a b : ℚ) (rest : List Segment) :
    (mainFluidezVal ⟨txt, segments⟩).numero_pausas =
      specPauseCount segments ∧
    (appwebCalcularFluidez ⟨txt, segments⟩).numero_pausas =
      (if duracionOf segments = 0 then 0
       else min (specPauseCount segments) 20) ∧
    transPausas [] = 0 ∧
    transPausas (⟨a, b, none⟩ :: rest) =
      specPauseCount ((⟨a, b, none⟩ : Segment) :: rest) +
        (if a > 3 / 2 then 1 else 0) ∧
    specPauseCount [⟨0, 2, none⟩, ⟨4, 6, none⟩] = 1 := by
  refine ⟨?_, ?_, rfl, ?_, ?_⟩
  · rw [mainFluidezVal]
    simp only
    exact countPausas_eq_spec segments
  · rw [appwebCalcularFluidez]
    split
    · rfl
    · simp only [countPausas_eq_spec segments]
  · rw [transPausas_cons, countPausas_eq_spec]
    have : ((⟨a, b, none⟩ : Segment).start -
        (⟨a, b, none⟩ : Segment).prevEnd.getD 0) = a := by
      simp [Option.getD]
    rw [this]
    omega
  · have h1 : ((4 : ℚ)) - 2 > 3 / 2 := by norm_num
    rw [show specPauseCount [⟨0, 2, none⟩, ⟨4, 6, none⟩] =
        countPausas [⟨0, 2, none⟩, ⟨4, 6, none⟩] from
      (countPausas_eq_spec _).symm]
    rw [countPausas, if_pos h1]
    rfl

/-- C6 counterexample: `transcribir.py`'s `calcular_fluidez` does not leave
its input transcription unchanged: after the call on segments
`[{start:0,end:2}, {start:4,end:6}]` the second segment carries a new
`prev_end` field (`some 2`), so the call is not pure in the claimed
sense. -/
theorem c6_counterexample :
    (transCalcularFluidez ⟨"x", [⟨0, 2, none⟩, ⟨4, 6, none⟩]⟩).2.segments =
      [⟨0, 2, none⟩, ⟨4, 6, some 2⟩] ∧
    (transCalcularFluidez ⟨"x", [⟨0, 2, none⟩, ⟨4, 6, none⟩]⟩).2 ≠
      ⟨"x", [⟨0, 2, none⟩, ⟨4, 6, none⟩]⟩ := by
  have hd : duracionOf [(⟨0, 2, none⟩ : Segment), ⟨4, 6, none⟩] = 6 := rfl
  have hseg :
      (transCalcularFluidez ⟨"x", [⟨0, 2, none⟩, ⟨4, 6, none⟩]⟩).2.segments =
      [⟨0, 2, none⟩, ⟨4, 6, some 2⟩] := by
    rw [transCalcularFluidez, if_neg (by rw [hd]; norm_num)]
    rfl
  refine ⟨hseg, fun hcontra => ?_⟩
  have := congrArg Transcription.segments hcontra
  rw [hseg] at this
  simp at this

/-- C6, corrected, amended part: the aligner, the aggregators and the
`main.py`/`analisis_appweb.py` fluency calculators are pure functions of
their inputs (their Python bodies never write to their arguments, and they
are embedded as plain functions), but `transcribir.py`'s `calcular_fluidez`
rewrites its input's segment list: whenever the duration is non-zero, every
segment after the first acquires a `prev_end` field equal to the previous
segment's end time, while the `start`/`end` fields and the segment count
are preserved and the first segment is untouched. -/
theorem c6_amended (t : Transcription) :
    (transCalcularFluidez t).2 =
      (if duracionOf t.segments = 0 then t
       else { t with segments := setPrevEnds t.segments }) ∧
    (setPrevEnds t.segments).map (fun s => (s.start, s.stop)) =
      t.segments.map (fun s => (s.start, s.stop)) ∧
    ((setPrevEnds t.segments).map (fun s => s.prevEnd)).tail =
      (t.segments.dropLast).map (fun s => some s.stop) ∧
    (setPrevEnds t.segments).head? = t.segments.head? ∧
    (setPrevEnds t.segments).length = t.segments.length := by
  refine ⟨?_, setPrevEnds_startStop t.segments, ?_, ?_,
    setPrevEnds_length t.segments⟩
  · rw [transCalcularFluidez]
    split
    · rfl
    · rfl
  · cases ht : t.segments with
    | nil => rfl
    | cons s rest =>
      rw [setPrevEnds, List.map_cons, List.tail_cons,
        setPrevEndsGo_prevEnds s rest]
  · cases ht : t.segments with
    | nil => rfl
    | cons s rest => rw [setPrevEnds]; rfl

/-- C7 counterexample: in `main.py`, when transcription fails (whisper
returns `None`) after both downloads succeeded, the job raises and its
`finally` only clears the busy flag: both temporary files are left behind.
So it is not the case that every exit path of every
`realizar_analisis_completo` removes the temporary files. -/
theorem c7_counterexample :
    (mainRealizar ⟨true, true, 0, false, true⟩
      ⟨false, false, true⟩).pdfExists = true ∧
    (mainRealizar ⟨true, true, 0, false, true⟩
      ⟨false, false, true⟩).audioExists = true := by
  constructor <;> rfl

/-- C7, corrected, amended part: `analisis_appweb.py`'s job removes both
temporary files on every exit path (success, handled failure, unhandled
failure) via its `finally` block, and `main.py` removes them on the
successful path; but a `main.py` failure after a download leaves them
behind. -/
theorem c7_amended (env : Env) (s : JobState) (dur : ℚ) :
    (appwebRealizar env s).pdfExists = false ∧
    (appwebRealizar env s).audioExists = false ∧
    (mainRealizar ⟨true, true, dur, true, true⟩ s).pdfExists = false ∧
    (mainRealizar ⟨true, true, dur, true, true⟩ s).audioExists = false := by
  refine ⟨rfl, rfl, ?_, ?_⟩ <;> rfl

/-- C8: after every run of `realizar_analisis_completo` — under every
environment outcome, in both variants, whether the body completed or raised
at any stage — the `finally` block sets the busy flag `analisis_en_curso`
back to `False`; no failure leaves the admission gate held. -/
theorem c8_busy_released (env : Env) (s : JobState) :
    (mainRealizar env s).busy = false ∧
    (appwebRealizar env s).busy = false :=
  ⟨rfl, rfl⟩

/-- C10: a submission while the busy flag is set is rejected synchronously —
no background task is scheduled and the flag is not cleared — and because
the 429 `HTTPException` raised inside the endpoint's own `try` block is
caught by its generic `except Exception` handler, the caller observes an
HTTP 500 response whose detail carries the busy-message text, not a 429
status; a submission while idle schedules the task and sets the flag. -/
theorem c10_busy_rejection :
    mainProgramar true = ⟨500, "429: " ++ busyMsgMain, false, true⟩ ∧
    appwebProgramar true = ⟨500, "429: " ++ busyMsgApp, false, true⟩ ∧
    (mainProgramar true).httpStatus ≠ 429 ∧
    mainProgramar false = ⟨200, "", true, true⟩ := by
  refine ⟨?_, ?_, by decide, rfl⟩
  · decide
  · decide

theorem keepCharApp_eq (c : Char) : keepCharApp c = keepChar c := by
  rw [keepCharApp, keepChar]
  by_cases hc : c ∈ ['á', 'é', 'í', 'ó', 'ú', 'ñ']
  · have hw : isWordChar c = true := by
      fin_cases hc <;> decide
    simp [hw]
  · simp [hc]

theorem dropWhile_head?_not (p : Char → Bool) :
    ∀ (l : List Char) {c : Char}, (l.dropWhile p).head? = some c →
      p c = false
  | [], c, h => by simp [List.dropWhile] at h
  | x :: l, c, h => by
    rw [List.dropWhile_cons] at h
    by_cases hx : p x = true
    · rw [if_pos hx] at h
      exact dropWhile_head?_not p l h
    · rw [if_neg hx] at h
      simp only [List.head?_cons, Option.some.injEq] at h
      subst h
      simpa using hx

theorem dropWhile_getLast?_of_ne_nil (p : Char → Bool) (l : List Char)
    (h : l.dropWhile p ≠ []) : (l.dropWhile p).getLast? = l.getLast? := by
  obtain ⟨t, ht⟩ := List.dropWhile_suffix (l := l) p
  conv_rhs => rw [← ht]
  rw [List.getLast?_append]
  cases hlast : (l.dropWhile p).getLast? with
  | none => exact absurd (List.getLast?_eq_none_iff.mp hlast) h
  | some c => simp [Option.or]

theorem pyStrip_getLast?_not (l : List Char) {c : Char}
    (h : (pyStrip l).getLast? = some c) : c.isWhitespace = false := by
  rw [pyStrip, List.getLast?_reverse] at h
  exact dropWhile_head?_not _ _ h

theorem pyStrip_head?_not (l : List Char) {c : Char}
    (h : (pyStrip l).head? = some c) : c.isWhitespace = false := by
  rw [pyStrip, List.head?_reverse] at h
  have hne : (l.dropWhile Char.isWhitespace).reverse.dropWhile
      Char.isWhitespace ≠ [] := by
    intro hnil
    rw [hnil] at h
    simp at h
  rw [dropWhile_getLast?_of_ne_nil _ _ hne, List.getLast?_reverse] at h
  exact dropWhile_head?_not _ _ h

theorem mem_pyStrip {c : Char} {l : List Char} (h : c ∈ pyStrip l) :
    c ∈ l := by
  rw [pyStrip, List.mem_reverse] at h
  have h1 := (List.dropWhile_sublist _).subset h
  rw [List.mem_reverse] at h1
  exact (List.dropWhile_sublist _).subset h1

/-- C9: `normalizar_texto` lower-cases its input, removes every character
that is neither a word character nor whitespace, and trims leading and
trailing whitespace (internal whitespace survives as the token separator,
as the example shows); it is total, maps the empty string to the empty
string, sends `"¡Hola, MUNDO!  "` to `"hola mundo"`, and the
`analisis_appweb.py` variant computes the same function. -/
theorem c9_normalizar (s : String) :
    normalizarTexto "" = "" ∧
    normalizarTexto "¡Hola, MUNDO!  " = "hola mundo" ∧
    normalizarTextoApp s = normalizarTexto s ∧
    (∀ c ∈ (normalizarTexto s).toList, keepChar c = true) ∧
    (∀ c, (normalizarTexto s).toList.head? = some c →
      c.isWhitespace = false) ∧
    (∀ c, (normalizarTexto s).toList.getLast? = some c →
      c.isWhitespace = false) := by
  refine ⟨by decide, by decide, ?_, ?_, ?_, ?_⟩
  · rw [normalizarTextoApp, normalizarTexto]
    congr 1
    congr 1
    exact List.filter_congr (fun c _ => keepCharApp_eq c)
  · intro c hc
    have hc' : c ∈ pyStrip ((s.toList.map pyToLower).filter keepChar) := hc
    exact List.of_mem_filter (mem_pyStrip hc')
  · intro c h
    exact pyStrip_head?_not _ h
  · intro c h
    exact pyStrip_getLast?_not _ h

/-- Witness for C9 at a concrete input. -/
theorem c9_normalizar_witness :
    'h' ∈ (normalizarTexto "¡Hola, MUNDO!  ").toList ∧
    keepChar 'h' = true ∧
    (normalizarTexto "¡Hola, MUNDO!  ").toList.head? = some 'h' ∧
    'h'.isWhitespace = false :=
  ⟨by decide, (c9_normalizar "¡Hola, MUNDO!  ").2.2.2.1 'h' (by decide),
   by decide, (c9_normalizar "¡Hola, MUNDO!  ").2.2.2.2.1 'h' (by decide)⟩

end Modelo
